import Mathlib

/-!
Verification development for the EWA document-processing pipeline
(`processor/chunkers/markdown_chunker.py`, `processor/extractors/alert_extractor.py`,
`processor/indexers/search_indexer.py`, `processor/function_app.py`).

Strings are modelled as `List Char`.  Python string primitives (`str.strip`,
`str.split`, `str.lower`, substring tests, `re` scanning for the two concrete
regular expressions the chunker uses) are embedded as executable functions
whose behaviour matches CPython on the ASCII inputs the pipeline handles.
-/

set_option maxHeartbeats 1000000

namespace Ewa

/-- Strings are modelled as lists of characters. -/
abbrev Str := List Char

/-- Coerce a Lean string literal to the model representation. -/
def str (s : String) : Str := s.data

/-- Python whitespace (`str.isspace` / regex `\s`) restricted to ASCII:
space, tab, newline, carriage return, vertical tab, form feed. -/
def isPySpace (c : Char) : Bool :=
  c == ' ' || c == '\t' || c == '\n' || c == '\r' ||
  c == Char.ofNat 11 || c == Char.ofNat 12

/-- Python `str.strip()`: drop leading and trailing whitespace. -/
def pyStrip (l : Str) : Str :=
  ((l.dropWhile isPySpace).reverse.dropWhile isPySpace).reverse

/-- Python `str.lower()` (ASCII). -/
def pyLower (l : Str) : Str := l.map Char.toLower

/-- Python `needle in hay` substring test. -/
def pyIn : Str → Str → Bool
  | n, [] => n.isEmpty
  | n, c :: t => n.isPrefixOf (c :: t) || pyIn n t

/-- Python `s.split('\n')`. -/
def splitLines (l : Str) : List Str := l.splitOn '\n'

/-- Python `s.split("\n\n")`: split at each non-overlapping, leftmost
occurrence of a blank-line separator. -/
def splitBlank : Str → List Str
  | [] => [[]]
  | [c] => [[c]]
  | a :: b :: rest =>
    if a = '\n' ∧ b = '\n' then
      [] :: splitBlank rest
    else
      match splitBlank (b :: rest) with
      | [] => [[a]]
      | h :: t => (a :: h) :: t

/-- Python `"\n\n".join(ps)`. -/
def joinBlank (ps : List Str) : Str := List.intercalate ['\n', '\n'] ps

/-- Python `"\n".join(ls)`. -/
def joinNl (ls : List Str) : Str := List.intercalate ['\n'] ls

/-- Decimal digits of a natural number, as characters. -/
def natDigits (n : Nat) : Str := (Nat.repr n).data

/-- Python `f"{n:0wd}"`: decimal, left-padded with zeros to width `w`. -/
def padZeros (w : Nat) (n : Nat) : Str :=
  List.replicate (w - (natDigits n).length) '0' ++ natDigits n

/-- Model of CPython `list(set(xs))`.  CPython's set iteration order is
implementation-defined (hash based); it is modelled here as one concrete
deduplication.  Properties proved about it (membership, absence of
duplicates) are order independent. -/
def pySetList (xs : List Str) : List Str := xs.dedup

/-- `shared/models/alert.py` `Severity`. -/
inductive Severity
  | very_high | high | medium | low | info | unknown
deriving DecidableEq, Repr

/-- The `str` value of a `Severity` member. -/
def Severity.value : Severity → Str
  | .very_high => str "very_high"
  | .high => str "high"
  | .medium => str "medium"
  | .low => str "low"
  | .info => str "info"
  | .unknown => str "unknown"

/-- `shared/models/alert.py` `Category`. -/
inductive Category
  | security | performance | stability | configuration | lifecycle
  | data_volume | database | bw | other | unknown
deriving DecidableEq, Repr

/-- The `str` value of a `Category` member. -/
def Category.value : Category → Str
  | .security => str "security"
  | .performance => str "performance"
  | .stability => str "stability"
  | .configuration => str "configuration"
  | .lifecycle => str "lifecycle"
  | .data_volume => str "data_volume"
  | .database => str "database"
  | .bw => str "bw"
  | .other => str "other"
  | .unknown => str "unknown"

/-- `shared/models/chunk.py` `Chunk`.  `report_date` is modelled as an opaque
timestamp; the embedding vector (`content_vector`, floating point) is outside
the embedded fragment and carried as an opaque optional tag. -/
structure Chunk where
  chunk_id : Str
  doc_id : Str
  customer_id : Str
  sid : Str
  environment : Option Str := none
  report_date : Option Nat := none
  section_path : Str
  page_start : Nat
  page_end : Nat
  severity : Option Severity := none
  category : Option Category := none
  sap_note_ids : List Str := []
  content_md : Str
  parent_chunk_id : Option Str := none
  header_level : Option Nat := none
deriving DecidableEq, Repr

/-- `shared/models/alert.py` `Alert`. -/
structure Alert where
  alert_id : Str
  customer_id : Str
  doc_id : Str
  sid : Str
  environment : Option Str := none
  report_date : Option Nat := none
  title : Str
  severity : Severity := .unknown
  category : Category := .unknown
  section_path : Str
  page_start : Nat
  page_end : Nat
  page_range : Str
  evidence_chunk_ids : List Str := []
  sap_note_ids : List Str := []
  tags : List Str := []
  description : Option Str := none
  recommendation : Option Str := none
deriving DecidableEq, Repr

/-! ### `MarkdownChunker._split_by_headers`: scanning `^(#{1,6})\s+(.+)$` (MULTILINE)

The regex is embedded as a direct scanner over character positions.  At a
line start, a match takes a run of 1–6 `#`, at least one whitespace character
(which, per `re` semantics, may cross line ends), and then a non-empty run of
non-newline characters (group 2).  When the whitespace run reaches the end of
the input, the greedy `\s+` backtracks minimally so that `(.+)$` can still
match one trailing non-newline whitespace character. -/

/-- Index of the first position `≥ i` holding a non-whitespace character. -/
def skipWs (s : Str) (i : Nat) : Nat :=
  i + ((s.drop i).takeWhile isPySpace).length

/-- Length of the run of `#` characters starting at `i`. -/
def hashRun (s : Str) (i : Nat) : Nat :=
  ((s.drop i).takeWhile (· = '#')).length

/-- Index of the line end (the next `'\n'`, or the end of input) at or after `i`. -/
def lineEnd (s : Str) (i : Nat) : Nat :=
  i + ((s.drop i).takeWhile (· ≠ '\n')).length

/-- The largest index `p` with `lo ≤ p < s.length` and `s[p] ≠ '\n'`. -/
def lastNonNl (s : Str) (lo : Nat) : Option Nat :=
  ((List.range s.length).filter
    (fun p => lo ≤ p ∧ (s.drop p).headD '\n' ≠ '\n')).getLast?

/-- One header match of `^(#{1,6})\s+(.+)$`. -/
structure HMatch where
  start : Nat
  level : Nat
  stop : Nat
  text : Str
deriving DecidableEq, Repr

/-- Try to match `(#{1,6})\s+(.+)$` at position `i` (assumed a line start).
Returns the match, whose `stop` is the regex match end. -/
def matchHeaderAt (s : Str) (i : Nat) : Option HMatch :=
  let m := hashRun s i
  if 1 ≤ m ∧ m ≤ 6 ∧ isPySpace ((s.drop (i + m)).headD 'x') then
    let k := skipWs s (i + m)
    if k < s.length then
      some ⟨i, m, lineEnd s k, (s.drop k).take (lineEnd s k - k)⟩
    else
      match lastNonNl s (i + m + 1) with
      | some p => some ⟨i, m, lineEnd s p, (s.drop p).take (lineEnd s p - p)⟩
      | none => none
  else
    none

/-- Whether position `i` is a line start (`^` in MULTILINE mode). -/
def atLineStart (s : Str) (i : Nat) : Bool :=
  i = 0 || (s.drop (i - 1)).headD 'x' = '\n'

/-- Fueled scan over positions: non-overlapping matches, left to right
(`re.finditer`). -/
def scanHeaders (s : Str) : Nat → Nat → List HMatch
  | 0, _ => []
  | fuel + 1, i =>
    if i ≥ s.length then []
    else
      match (if atLineStart s i then matchHeaderAt s i else none) with
      | some h => h :: scanHeaders s fuel (max h.stop (i + 1))
      | none => scanHeaders s fuel (i + 1)

/-- All matches of the header pattern in `s`. -/
def findHeaderMatches (s : Str) : List HMatch :=
  scanHeaders s (s.length + 1) 0

/-- One section of the split markdown:
`(header_level, header_text, content, start_pos, end_pos)`. -/
structure Sect where
  level : Nat
  header : Str
  content : Str
  startPos : Nat
  endPos : Nat
deriving DecidableEq, Repr

/-- `MarkdownChunker._split_by_headers`. -/
def splitByHeaders (s : Str) : List Sect :=
  match findHeaderMatches s with
  | [] => [⟨0, str "Document", s, 0, s.length⟩]
  | m₀ :: ms =>
    let allMatches := m₀ :: ms
    let introSecs :=
      if 0 < m₀.start ∧ pyStrip (s.take m₀.start) ≠ [] then
        [⟨0, str "Introduction", pyStrip (s.take m₀.start), 0, m₀.start⟩]
      else []
    let ends := (allMatches.map (·.start)).drop 1 ++ [s.length]
    introSecs ++ List.zipWith
      (fun (mt : HMatch) (nxt : Nat) =>
        ⟨mt.level, pyStrip mt.text,
         pyStrip ((s.drop mt.stop).take (nxt - mt.stop)), mt.start, nxt⟩)
      allMatches ends

/-! ### `MarkdownChunker._build_section_path` -/

/-- One pass of the `level_counters` update in `_build_section_path`:
`level_counters[level] += 1` (starting at 0 when absent) followed by deletion
of all keys deeper than `level`.  The association list is kept in strictly
increasing key order, which makes Python's `sorted(level_counters.keys())`
the identity on it. -/
def updateCounters (counters : List (Nat × Nat)) (level : Nat) : List (Nat × Nat) :=
  counters.filter (fun p => p.1 < level) ++
    [(level, ((counters.lookup level).getD 0) + 1)]

/-- The header text of the first section among `sections[0..upTo]` whose
level equals `l` (the inner `for j in range(i + 1)` loop with `break`). -/
def firstHeaderAtLevel (sections : List Sect) (upTo : Nat) (l : Nat) : Option Str :=
  ((sections.take (upTo + 1)).find? (fun sec => sec.level = l)).map (·.header)

/-- `MarkdownChunker._build_section_path`. -/
def buildSectionPath (sections : List Sect) (currentIdx : Nat)
    (currentLevel : Nat) (currentHeader : Str) : Str :=
  if currentLevel = 0 then currentHeader
  else
    let counters := ((sections.take (currentIdx + 1)).filter
      (fun sec => sec.level ≠ 0)).foldl (fun cs sec => updateCounters cs sec.level) []
    let sortedKeys := (counters.map (·.1)).insertionSort (· ≤ ·)
    let pathParts := sortedKeys.filterMap (fun l =>
      if l = currentLevel ∨ l < currentLevel then
        (firstHeaderAtLevel sections currentIdx l).map (fun h =>
          natDigits ((counters.lookup l).getD 0) ++ str ". " ++ h)
      else none)
    if pathParts ≠ [] then List.intercalate (str "/") pathParts else currentHeader

/-! ### `MarkdownChunker._get_page_range`, `_extract_severity`, `_extract_category` -/

/-- `MarkdownChunker._get_page_range`.  A `page_map` entry is
`(start_char, end_char, page_num)`; `[]` models `page_map=None`. -/
def getPageRange (startPos endPos : Nat) (pageMap : List (Nat × Nat × Nat)) : Nat × Nat :=
  if pageMap = [] then (1, 1)
  else
    let pair := pageMap.foldl
      (fun (acc : Nat × Nat) (t : Nat × Nat × Nat) =>
        ((if t.1 ≤ startPos ∧ startPos ≤ t.2.1 then t.2.2 else acc.1),
         (if t.1 ≤ endPos ∧ endPos ≤ t.2.1 then t.2.2 else acc.2)))
      (1, 1)
    (pair.1, max pair.1 pair.2)

/-- `MarkdownChunker._extract_severity`. -/
def extractSeverity (content header : Str) : Option Severity :=
  let text := pyLower (header ++ [' '] ++ content)
  if pyIn (str "very high") text || pyIn (str "critical") text then some .very_high
  else if pyIn (str "high") text then some .high
  else if pyIn (str "medium") text then some .medium
  else if pyIn (str "low") text then some .low
  else if pyIn (str "info") text then some .info
  else none

/-- The ordered `category_map` of `MarkdownChunker._extract_category`. -/
def categoryMap : List (Category × List Str) :=
  [(.security, [str "security", str "patch", str "vulnerability", str "audit",
                str "authorization"]),
   (.performance, [str "performance", str "response time", str "throughput",
                   str "cpu", str "memory"]),
   (.stability, [str "stability", str "crash", str "dump", str "error", str "abap"]),
   (.configuration, [str "configuration", str "parameter", str "profile",
                     str "settings"]),
   (.lifecycle, [str "lifecycle", str "support package", str "sp", str "upgrade",
                 str "version"]),
   (.data_volume, [str "data volume", str "database size", str "growth",
                   str "archiving", str "table size"]),
   (.database, [str "hana", str "oracle", str "sql server", str "db2",
                str "database"]),
   (.bw, [str "bw", str "business warehouse", str "infocube", str "dso"])]

/-- `MarkdownChunker._extract_category`. -/
def extractCategory (content header : Str) : Option Category :=
  let text := pyLower (header ++ [' '] ++ content)
  (categoryMap.find? (fun p => p.2.any (fun kw => pyIn kw text))).map (·.1)

/-! ### `MarkdownChunker._extract_sap_notes`

The regex `(?:SAP\s*)?[Nn]ote\s*(?:Number\s*)?[:\-]?\s*(\d{7,10})` is embedded
as a scanner.  Its greedy pieces never need backtracking across each other
(each optional literal starts with a non-whitespace, non-digit character), so
a committed left-to-right match is faithful to `re` semantics. -/

/-- Whether `lit` occurs literally at position `i` of `s`. -/
def litAt (s : Str) (i : Nat) (lit : Str) : Bool :=
  lit.isPrefixOf (s.drop i)

/-- Try to match the SAP-note core `[Nn]ote\s*(?:Number\s*)?[:\-]?\s*(\d{7,10})`
at position `j`.  Returns `(captured digits, match end)`. -/
def matchNoteCore (s : Str) (j : Nat) : Option (Str × Nat) :=
  if (litAt s j (str "Note") || litAt s j (str "note")) then
    let k := skipWs s (j + 4)
    let k₂ := if litAt s k (str "Number") then skipWs s (k + 6) else k
    let k₃ := if (s.drop k₂).headD 'x' = ':' ∨ (s.drop k₂).headD 'x' = '-' then
        k₂ + 1 else k₂
    let k₄ := skipWs s k₃
    let run := (s.drop k₄).takeWhile Char.isDigit
    if 7 ≤ run.length then
      some (run.take 10, k₄ + min 10 run.length)
    else none
  else none

/-- Try to match the full note pattern (with the optional `SAP` prefix) at `i`. -/
def matchNoteAt (s : Str) (i : Nat) : Option (Str × Nat) :=
  match (if litAt s i (str "SAP") then matchNoteCore s (skipWs s (i + 3)) else none) with
  | some r => some r
  | none => matchNoteCore s i

/-- Fueled `re.findall` scan for the note pattern. -/
def scanNotes (s : Str) : Nat → Nat → List Str
  | 0, _ => []
  | fuel + 1, i =>
    if i ≥ s.length then []
    else
      match matchNoteAt s i with
      | some (cap, e) => cap :: scanNotes s fuel (max e (i + 1))
      | none => scanNotes s fuel (i + 1)

/-- `re.findall` of the SAP-note pattern over `content`. -/
def sapNoteFindAll (content : Str) : List Str :=
  scanNotes content (content.length + 1) 0

/-- `MarkdownChunker._extract_sap_notes`: `list(set(re.findall(...)))`. -/
def extractSapNotes (content : Str) : List Str :=
  pySetList (sapNoteFindAll content)

/-! ### `MarkdownChunker._split_large_chunk` -/

/-- The header line retained by `_split_large_chunk`: the first line of the
content when it starts with `'#'`, else the empty string. -/
def splitHeaderOf (content : Str) : Str :=
  match splitLines content with
  | [] => []
  | l₀ :: _ => if l₀.headD ' ' = '#' then l₀ else []

/-- The body `_split_large_chunk` splits into paragraphs: the remaining lines
when a header line was found, else the whole content. -/
def splitBodyOf (content : Str) : Str :=
  if splitHeaderOf content ≠ [] then joinNl ((splitLines content).drop 1)
  else content

/-- The paragraphs of the body (`body.split("\n\n")`). -/
def parasOf (content : Str) : List Str := splitBlank (splitBodyOf content)

/-- The initial accumulator: `header + "\n\n" if header else ""`. -/
def hdrSeedOf (content : Str) : Str :=
  if splitHeaderOf content ≠ [] then splitHeaderOf content ++ ['\n', '\n'] else []

/-- Accumulator state of the paragraph loop in `_split_large_chunk`:
emitted sub-chunk contents (in order), the running accumulator, and the
sub-chunk counter. -/
structure SplitState where
  emitted : List Str
  cur : Str
  num : Nat
deriving DecidableEq, Repr

/-- One iteration of the paragraph loop in `_split_large_chunk`. -/
def splitStep (maxChunkSize : Nat) (header : Str) (st : SplitState) (para : Str) :
    SplitState :=
  if st.cur.length + para.length > maxChunkSize ∧ pyStrip st.cur ≠ [] then
    { emitted := st.emitted ++ [pyStrip st.cur]
      cur := if header ≠ [] then header ++ ['\n', '\n'] ++ para else para
      num := st.num + 1 }
  else
    { st with cur := st.cur ++ (if pyStrip st.cur ≠ [] then ['\n', '\n'] ++ para else para) }

/-- The emitted sub-chunk contents of `_split_large_chunk` (before they are
wrapped in `Chunk` records): the loop over paragraphs followed by the final
flush of a non-empty accumulator. -/
def splitContents (content : Str) (maxChunkSize : Nat) : List Str :=
  let final := (parasOf content).foldl
    (splitStep maxChunkSize (splitHeaderOf content))
    ⟨[], hdrSeedOf content, 0⟩
  final.emitted ++ (if pyStrip final.cur ≠ [] then [pyStrip final.cur] else [])

/-- `MarkdownChunker._split_large_chunk`. -/
def splitLargeChunk (chunk : Chunk) (baseIdx : Nat) (maxChunkSize : Nat) : List Chunk :=
  (splitContents chunk.content_md maxChunkSize).enum.map
    (fun p => { chunk with
      chunk_id := chunk.doc_id ++ str "_chunk_" ++ padZeros 4 baseIdx ++
        str "_sub" ++ padZeros 2 p.1
      content_md := p.2
      parent_chunk_id := some chunk.chunk_id })

/-! ### `MarkdownChunker.chunk_document` -/

/-- The `Chunk` built for section `i` before the size check
(the body of the `for` loop in `chunk_document`). -/
def mkSectionChunk (docId customerId sid : Str) (environment : Option Str)
    (reportDate : Option Nat) (pageMap : List (Nat × Nat × Nat))
    (sections : List Sect) (i : Nat) (sec : Sect) : Chunk :=
  let sectionPath := buildSectionPath sections i sec.level sec.header
  let pr := getPageRange sec.startPos sec.endPos pageMap
  { chunk_id := docId ++ str "_chunk_" ++ padZeros 4 i
    doc_id := docId
    customer_id := customerId
    sid := sid
    environment := environment
    report_date := reportDate
    section_path := sectionPath
    page_start := pr.1
    page_end := pr.2
    severity := extractSeverity sec.content sec.header
    category := extractCategory sec.content sec.header
    sap_note_ids := extractSapNotes sec.content
    content_md :=
      if sec.level > 0 then
        pyStrip (List.replicate sec.level '#' ++ [' '] ++ sec.header ++
          ['\n', '\n'] ++ sec.content)
      else sec.content
    parent_chunk_id := none
    header_level := if sec.level > 0 then some sec.level else none }

/-- `MarkdownChunker.chunk_document`. -/
def chunkDocument (maxChunkSize : Nat) (markdown docId customerId sid : Str)
    (environment : Option Str := none) (reportDate : Option Nat := none)
    (pageMap : List (Nat × Nat × Nat) := []) : List Chunk :=
  let sections := splitByHeaders markdown
  (sections.enum.map (fun p =>
    let c := mkSectionChunk docId customerId sid environment reportDate pageMap
      sections p.1 p.2
    if c.content_md.length > maxChunkSize then splitLargeChunk c p.1 maxChunkSize
    else [c])).flatten

/-! ### `MarkdownChunker.link_alerts_to_chunks` -/

/-- The evidence test of the loop body in `link_alerts_to_chunks`.  The Python
guards `if alert.severity` / `if alert.category` are always truthy (the enum
members are non-empty strings), so only the substring tests remain. -/
def evidenceCond (alert : Alert) (c : Chunk) : Bool :=
  let pageOverlap := c.page_start ≤ alert.page_end ∧ c.page_end ≥ alert.page_start
  let sectionMatch := pyIn alert.severity.value (pyLower c.section_path) ||
    pyIn alert.category.value (pyLower c.section_path)
  pageOverlap || sectionMatch

/-- `MarkdownChunker.link_alerts_to_chunks`. -/
def linkAlertsToChunks (alerts : List Alert) (chunks : List Chunk) : List Alert :=
  alerts.map (fun alert =>
    let evidenceIds := chunks.foldl
      (fun acc c => if evidenceCond alert c then acc ++ [c.chunk_id] else acc) []
    { alert with evidence_chunk_ids := (pySetList evidenceIds).take 5 })

/-! ### `function_app._run_pipeline` and `SearchIndexer`

The pipeline's external collaborators (blob download, PDF extraction, the
vision call, the embedding call, the search-index uploads/merges) are modelled
as oracle outcomes carried by a `World`; the pure stages (chunking, evidence
linking) run the embedded functions.  `SearchIndexer.index_document`,
`index_chunks`, `index_alerts` and `update_document_status` all catch every
exception internally and return a boolean, so in the model they never
propagate an error. -/

/-- An opaque exception value. -/
inductive PipeError
  | err (code : Nat)
deriving DecidableEq, Repr

/-- What `PDFExtractor.extract` produced: the `Document` fields the pipeline
uses, plus the markdown text.  The rendered page images are opaque. -/
structure ExtractOut where
  docId : Str
  sid : Str
  environment : Option Str := none
  reportDate : Option Nat := none
  markdown : Str
deriving Repr

/-- Outcome of `alert_extractor.extract_alerts` as observed through
`future.result(timeout=90)`: a timeout, an arbitrary exception, or a result. -/
inductive AlertStage
  | timeout
  | failure (e : PipeError)
  | ok (alerts : List Alert)
deriving Repr

/-- Oracle outcomes of one pipeline run's external calls. -/
structure World where
  customerId : Str
  fileName : Str
  download : Except PipeError Unit
  extract : Except PipeError ExtractOut
  alertStage : AlertStage
  embed : Except PipeError Unit
  docUploadOk : Bool
  chunksUploadOk : Bool
  alertsUploadOk : Bool
  statusMergeOk : Bool

/-- One persisted write of a document `processing_status` (with optional
`alert_count`) to the docs index. -/
structure StatusWrite where
  docId : Str
  status : Str
  alertCount : Option Nat
deriving DecidableEq, Repr

/-- Everything a run of `_run_pipeline` leaves behind. -/
structure RunResult where
  writes : List StatusWrite
  outcome : Except PipeError Unit
  alerts : List Alert
  chunks : List Chunk
  chunksPersisted : Bool
  alertsPersisted : Bool

def statusExtracting : Str := str "extracting"
def statusCompleted : Str := str "completed"
def statusFailed : Str := str "failed"

/-- `SearchIndexer.index_chunks`: empty input returns `True` immediately; an
upload failure is caught and surfaces only as `False`. -/
def indexChunksOk (chunks : List Chunk) (uploadOk : Bool) : Bool :=
  if chunks = [] then true else uploadOk

/-- `SearchIndexer.index_alerts` (same swallowing behaviour). -/
def indexAlertsOk (alerts : List Alert) (uploadOk : Bool) : Bool :=
  if alerts = [] then true else uploadOk

/-- `SearchIndexer.update_document_status`: the merge is attempted and its
failure is caught, so the write persists exactly when the merge succeeds. -/
def updateDocumentStatus (mergeOk : Bool) (writes : List StatusWrite)
    (docId : Str) (status : Str) (alertCount : Option Nat) : List StatusWrite :=
  if mergeOk then writes ++ [⟨docId, status, alertCount⟩] else writes

/-- `future.result(timeout=90)` in `_run_pipeline` step 2. -/
def alertExtractionTimeoutSeconds : Nat := 90

/-- `VisionAlertExtractor.__init__` default `request_timeout_seconds`
(the library-level timeout handed to the OpenAI client). -/
def visionRequestTimeoutSeconds : Nat := 180

/-- `MarkdownChunker(max_chunk_size=4000)` in `_run_pipeline`. -/
def pipelineMaxChunkSize : Nat := 4000

/-- `function_app._run_pipeline`.  Event Grid publishing is best-effort
(`publish_event` catches every exception) and does not touch the document
status, so it is not modelled. -/
def runPipeline (w : World) : RunResult :=
  match w.download with
  | .error e => ⟨[], .error e, [], [], false, false⟩
  | .ok () =>
    match w.extract with
    | .error e =>
      -- doc_id is still None in the except handler: no failed-status write
      ⟨[], .error e, [], [], false, false⟩
    | .ok eo =>
      -- index_document uploads the Document record (status "extracting");
      -- exceptions are caught inside SearchIndexer.index_document
      let writes₀ : List StatusWrite :=
        if w.docUploadOk then [⟨eo.docId, statusExtracting, none⟩] else []
      -- Step 2: timeout or any exception degrades to an empty alert list
      let alerts := match w.alertStage with
        | .ok r => r
        | .timeout => []
        | .failure _ => []
      -- Steps 3–4: chunking and evidence linking (no page_map is passed)
      let chunks := chunkDocument pipelineMaxChunkSize eo.markdown eo.docId
        w.customerId eo.sid eo.environment eo.reportDate []
      let linked := linkAlertsToChunks alerts chunks
      -- Step 5: embedding; an exception here reaches the except handler,
      -- which writes a failed status (doc_id is set) and re-raises
      match w.embed with
      | .error e =>
        ⟨updateDocumentStatus w.statusMergeOk writes₀ eo.docId statusFailed none,
         .error e, linked, chunks, false, false⟩
      | .ok () =>
        -- Step 6: index_chunks / index_alerts swallow their failures; the
        -- returned booleans are ignored and the completed status is written
        ⟨updateDocumentStatus w.statusMergeOk writes₀ eo.docId statusCompleted
           (some linked.length),
         .ok (), linked, chunks,
         indexChunksOk chunks w.chunksUploadOk,
         indexAlertsOk linked w.alertsUploadOk⟩

/-! ### `VisionAlertExtractor.extract_alerts` retry policy

`@retry(stop=stop_after_attempt(2), wait=wait_exponential(multiplier=1, min=2,
max=4))` wraps the whole of `extract_alerts`, including response parsing and
validation.  `tenacity`'s default retry condition retries on any exception;
after the stop condition the last failure is raised (as a `RetryError`). -/

/-- One attempt of the decorated `extract_alerts` body: the external call
fails transiently, or the response fails to parse/validate, or it succeeds. -/
inductive CallOutcome
  | transient
  | parseFailure
  | success (r : List Alert)
deriving DecidableEq, Repr

/-- `stop_after_attempt(2)` in the decorator on `extract_alerts`. -/
def tenacityStopAttempts : Nat := 2

/-- `wait_exponential(multiplier=1, min=2, max=4)` bounds (seconds) on the
decorator; wall-clock waiting itself is outside the embedding. -/
def tenacityWaitMinSeconds : Nat := 2

def tenacityWaitMaxSeconds : Nat := 4

/-- The `tenacity` retry loop: run attempts `n, n+1, ...` while `remaining`
attempts are allowed, retrying on any exception, and report
`(number of attempts made, final outcome)`. -/
def tenacityGo (outcomes : Nat → CallOutcome) : Nat → Nat → Nat × Except Unit (List Alert)
  | n, 0 => (n, .error ())
  | n, remaining + 1 =>
    match outcomes n with
    | .success r => (n + 1, .ok r)
    | _ => if remaining = 0 then (n + 1, .error ()) else tenacityGo outcomes (n + 1) remaining

/-- `extract_alerts` as seen through its retry decorator: attempt outcomes in,
`(attempts made, result)` out. -/
def extractAlertsRetried (outcomes : Nat → CallOutcome) : Nat × Except Unit (List Alert) :=
  tenacityGo outcomes 0 tenacityStopAttempts

/-! ### Concrete instances used by counterexamples and witnesses -/

instance {α β : Type} [DecidableEq α] [DecidableEq β] :
    DecidableEq (Except α β) := fun a b =>
  match a, b with
  | .ok x, .ok y =>
    if h : x = y then isTrue (by rw [h]) else isFalse (by simp [h])
  | .ok _, .error _ => isFalse (by simp)
  | .error _, .ok _ => isFalse (by simp)
  | .error x, .error y =>
    if h : x = y then isTrue (by rw [h]) else isFalse (by simp [h])

/-- The six-page scenario document: two level-1 headers (whose text is
`1. Overview` and `2. Hardware`) and one level-2 header (`1.1 System Info`)
under the first, with small bodies and no content before the first header. -/
def mdSectionPathDoc : Str :=
  str "# 1. Overview\n\nIntro text.\n\n## 1.1 System Info\n\nInfo body.\n\n# 2. Hardware\n\nHardware body."

/-- Two paragraphs of 4 and 6 characters: joined content has length 12, yet
the splitter's size check (which ignores the 2-character separator) never
fires for `max_chunk_size = 10`. -/
def mdTwoParas : Str := str "aaaa\n\nbbbbbb"

/-- A header-free document of length 13 that exceeds `max_chunk_size = 10`. -/
def mdNoHeadersLarge : Str := str "aaaaa\n\nbbbbbb"

/-- Extraction output shared by the concrete pipeline runs. -/
def extractOutSample : ExtractOut :=
  { docId := str "doc1", sid := str "PRD001", markdown := str "# Alerts\n\nBody text." }

/-- A fully healthy pipeline run. -/
def worldBase : World :=
  { customerId := str "cust", fileName := str "report.pdf"
    download := .ok (), extract := .ok extractOutSample
    alertStage := .ok [], embed := .ok ()
    docUploadOk := true, chunksUploadOk := true, alertsUploadOk := true
    statusMergeOk := true }

/-- A run in which the chunk upload inside `index_chunks` raises. -/
def worldIndexUploadFails : World := { worldBase with chunksUploadOk := false }

/-- A run in which the alert-extraction future times out. -/
def worldAlertTimeout : World := { worldBase with alertStage := .timeout }

/-- A run in which the embedding call raises. -/
def worldEmbedFails : World := { worldBase with embed := .error (.err 7) }

/-- Attempt outcomes whose first attempt fails with a parse error and whose
second attempt succeeds. -/
def outcomesParseThenOk : Nat → CallOutcome :=
  fun n => match n with
  | 0 => .parseFailure
  | _ => .success []

/-- An alert whose `page_range` is `3-4`. -/
def alertPages34 : Alert :=
  { alert_id := str "doc1_0", customer_id := str "cust", doc_id := str "doc1"
    sid := str "PRD001", title := str "Database Growth"
    severity := .high, category := .data_volume
    section_path := str "Priority/High"
    page_start := 3, page_end := 4, page_range := str "3-4" }

/-- A chunk covering pages 4–5. -/
def chunkPages45 : Chunk :=
  { chunk_id := str "doc1_chunk_0007", doc_id := str "doc1"
    customer_id := str "cust", sid := str "PRD001"
    section_path := str "2. Hardware", page_start := 4, page_end := 5
    content_md := str "body" }

/-- A section chunk whose header line is `# Head` and whose body is a single
10-character paragraph, so that header + blank line + paragraph exceed a
`max_chunk_size` of 10. -/
def chunkHeaderLongPara : Chunk :=
  { chunk_id := str "doc1_chunk_0003", doc_id := str "doc1"
    customer_id := str "cust", sid := str "PRD001"
    section_path := str "1. Head", page_start := 1, page_end := 1
    content_md := str "# Head\nxxxxxxxxxx" }

/-- The specification's evidence test, in the spec's own wording: page-range
overlap, or the lower-cased severity/category string occurring as a substring
of the lower-cased section path. -/
def specEvidence (alert : Alert) (c : Chunk) : Bool :=
  (decide (c.page_start ≤ alert.page_end ∧ c.page_end ≥ alert.page_start)) ||
  pyIn (pyLower alert.severity.value) (pyLower c.section_path) ||
  pyIn (pyLower alert.category.value) (pyLower c.section_path)

/-- Invariant of the paragraph loop in `_split_large_chunk`, for a fixed
header line `hdr` and paragraph pool `paras`: every emitted content, and
(after stripping) the running accumulator, is either within the slack bound
`maxSz + 2` or a stripped header-seed remnant with at most one paragraph
attached; and when a header line is present the accumulator never strips to
the empty string. -/
def SplitInv (maxSz : Nat) (hdr : Str) (paras : List Str) (st : SplitState) : Prop :=
  (∀ x ∈ st.emitted,
    x.length ≤ maxSz + 2 ∨
    (∃ p ∈ paras,
      x = pyStrip ((if hdr ≠ [] then hdr ++ ['\n', '\n'] else []) ++ p)) ∨
    x = pyStrip (if hdr ≠ [] then hdr ++ ['\n', '\n'] else [])) ∧
  (st.cur.length ≤ maxSz + 2 ∨
    (∃ p ∈ paras,
      pyStrip st.cur = pyStrip ((if hdr ≠ [] then hdr ++ ['\n', '\n'] else []) ++ p)) ∨
    pyStrip st.cur = pyStrip (if hdr ≠ [] then hdr ++ ['\n', '\n'] else [])) ∧
  (hdr ≠ [] → pyStrip st.cur ≠ [])

/-! ## Theorems -/

theorem pyLower_severity_value (s : Severity) : pyLower s.value = s.value := by
  cases s <;> decide

theorem pyLower_category_value (c : Category) : pyLower c.value = c.value := by
  cases c <;> decide

/-- The spec's evidence test agrees with the loop condition in the code:
severity and category enum values are already lower case. -/
theorem specEvidence_eq_evidenceCond (a : Alert) (c : Chunk) :
    specEvidence a c = evidenceCond a c := by
  simp only [specEvidence, evidenceCond,
    pyLower_severity_value, pyLower_category_value, Bool.or_assoc]

/-- The id-collecting fold in `link_alerts_to_chunks` is filtering followed
by projection to ids. -/
theorem evidenceFold_eq (a : Alert) (chunks : List Chunk) (acc : List Str) :
    chunks.foldl
      (fun acc c => if evidenceCond a c then acc ++ [c.chunk_id] else acc) acc =
    acc ++ (chunks.filter (fun c => evidenceCond a c)).map (fun c => c.chunk_id) := by
  induction chunks generalizing acc with
  | nil => simp
  | cons c rest ih =>
    by_cases h : evidenceCond a c <;> simp [h, ih]

/-- C1: on the scenario document, `chunk_document` does produce exactly 3
chunks with header levels 1, 2, 1, but the section paths it assigns are
`1. 1. Overview`, `1. 1. Overview/1. 1.1 System Info` and `2. 1. Overview`:
the per-level counter is prepended to the raw header text (duplicating its
numbering), and the path component for a level always reuses the FIRST header
seen at that level, so the second level-1 section is labelled with the first
section's title.  The claimed paths `1. Overview`,
`1. Overview/1.1 System Info`, `2. Hardware` are not produced. -/
theorem c1_sectionPaths_divergence :
    (chunkDocument 4000 mdSectionPathDoc (str "doc1") (str "cust") (str "PRD001")).map
        (fun c => c.section_path) =
      [str "1. 1. Overview", str "1. 1. Overview/1. 1.1 System Info",
       str "2. 1. Overview"] ∧
    (chunkDocument 4000 mdSectionPathDoc (str "doc1") (str "cust") (str "PRD001")).map
        (fun c => c.header_level) = [some 1, some 2, some 1] ∧
    (chunkDocument 4000 mdSectionPathDoc (str "doc1") (str "cust") (str "PRD001")).map
        (fun c => c.section_path) ≠
      [str "1. Overview", str "1. Overview/1.1 System Info", str "2. Hardware"] := by
  decide

/-- C2 counterexample: in a run where persisting the chunks fails (the upload
inside `index_chunks` raises and is swallowed, so `chunksPersisted = false`
while chunks were produced), the pipeline still finishes normally: a
`completed` status (with alert count) is written, no `failed` status is ever
written, and no exception propagates — contradicting the claim that such a
run sets the status to `failed` and never writes `completed`. -/
theorem c2_indexFailure_counterexample :
    (runPipeline worldIndexUploadFails).chunks ≠ [] ∧
    (runPipeline worldIndexUploadFails).chunksPersisted = false ∧
    (runPipeline worldIndexUploadFails).outcome = .ok () ∧
    (runPipeline worldIndexUploadFails).writes.map (fun x => x.status) =
      [statusExtracting, statusCompleted] ∧
    ((runPipeline worldIndexUploadFails).writes.filter
      (fun x => x.status = statusFailed)) = [] := by
  decide

/-- C5 counterexample: `mdTwoParas` has no headers and length 12 > 10, so its
single section's assembled content exceeds `max_chunk_size = 10`; neither of
its two paragraphs (lengths 4 and 6) exceeds the bound on its own; yet
`chunk_document` returns exactly ONE sub-chunk, of length 12 — because the
size check `len(current) + len(para) > max` ignores the two-character
`"\n\n"` separator that the accumulator then inserts. -/
theorem c5_oversized_counterexample :
    (chunkDocument 10 mdTwoParas (str "doc1") (str "cust") (str "PRD001")).map
        (fun c => c.content_md.length) = [12] ∧
    (splitBlank mdTwoParas).map List.length = [4, 6] ∧
    mdTwoParas.length > 10 := by
  decide

/-- C6 counterexample: a header-free markdown longer than `max_chunk_size`
is split, so `chunk_document` returns two chunks, not exactly one. -/
theorem c6_no_headers_counterexample :
    findHeaderMatches mdNoHeadersLarge = [] ∧
    (chunkDocument 10 mdNoHeadersLarge (str "doc1") (str "cust") (str "PRD001")).length
      = 2 := by
  decide

/-- C8 counterexample: with a first attempt failing on response parsing and a
second attempt succeeding, the decorated `extract_alerts` performs a SECOND
attempt and returns its result — parse/validation failures are retried
(tenacity's default retry condition retries on any exception), contradicting
the claim that they are not. -/
theorem c8_parseRetry_counterexample :
    outcomesParseThenOk 0 = .parseFailure ∧
    extractAlertsRetried outcomesParseThenOk = (2, .ok []) ∧ (2 : Nat) ≠ 1 := by
  decide

/-- C9 counterexample: the pattern matches `[Nn]ote`, not a case-insensitive
`note`, so an upper-case `NOTE` yields no extraction, while the same content
with `Note` yields the note id — the claimed full case-insensitivity fails. -/
theorem c9_case_counterexample :
    extractSapNotes (str "See SAP NOTE 1234567.") = [] ∧
    extractSapNotes (str "See SAP Note 1234567.") = [str "1234567"] := by
  decide

/-- C2 (amended): when persisting chunks or alerts to the index fails, the
failure is caught inside `index_chunks`/`index_alerts` (which merely return
`False`, a value the orchestrator ignores), so the pipeline still writes the
`completed` status with the alert count as its final status write, never
writes `failed`, and propagates no exception.  `failed` is reserved for
exceptions that escape a stage. -/
theorem c2_amended_indexFailureSwallowed (w : World) (eo : ExtractOut)
    (hd : w.download = .ok ()) (he : w.extract = .ok eo)
    (hb : w.embed = .ok ()) (hm : w.statusMergeOk = true)
    (hfail : w.chunksUploadOk = false ∨ w.alertsUploadOk = false) :
    (runPipeline w).outcome = .ok () ∧
    (runPipeline w).writes.getLast? =
      some ⟨eo.docId, statusCompleted, some (runPipeline w).alerts.length⟩ ∧
    ∀ x ∈ (runPipeline w).writes, x.status ≠ statusFailed := by
  obtain ⟨cid, fn, dl, ex, as, em, du, cu, au, sm⟩ := w
  simp only at hd he hb hm
  subst hd he hb hm
  cases as <;> cases du <;>
    simp [runPipeline, updateDocumentStatus, statusExtracting, statusCompleted,
      statusFailed, str]

/-- C2 witness. -/
theorem c2_amended_indexFailureSwallowed_witness :
    (runPipeline worldIndexUploadFails).outcome = .ok () ∧
    (runPipeline worldIndexUploadFails).writes.getLast? =
      some ⟨(str "doc1"), statusCompleted,
        some (runPipeline worldIndexUploadFails).alerts.length⟩ ∧
    ∀ x ∈ (runPipeline worldIndexUploadFails).writes, x.status ≠ statusFailed :=
  c2_amended_indexFailureSwallowed worldIndexUploadFails extractOutSample
    rfl rfl rfl rfl (Or.inl rfl)

/-- C3: if the alert-extraction stage times out against the hard 90-second
`future.result` bound, or raises any exception, the stage degrades to an
empty alert list without raising, and the pipeline still runs chunking,
embedding and indexing and writes the `completed` status (alert count 0).
The 90-second bound passed to `future.result` is separate from the 180-second
library-level timeout configured on the vision client. -/
theorem c3_alertTimeout_degrades (w : World) (eo : ExtractOut)
    (hd : w.download = .ok ()) (he : w.extract = .ok eo)
    (ha : w.alertStage = .timeout ∨ ∃ e, w.alertStage = .failure e)
    (hb : w.embed = .ok ()) (hm : w.statusMergeOk = true) :
    (runPipeline w).alerts = [] ∧
    (runPipeline w).outcome = .ok () ∧
    (runPipeline w).writes.getLast? = some ⟨eo.docId, statusCompleted, some 0⟩ ∧
    (runPipeline w).chunks = chunkDocument pipelineMaxChunkSize eo.markdown
      eo.docId w.customerId eo.sid eo.environment eo.reportDate [] ∧
    alertExtractionTimeoutSeconds = 90 ∧ visionRequestTimeoutSeconds = 180 := by
  obtain ⟨cid, fn, dl, ex, as, em, du, cu, au, sm⟩ := w
  simp only at hd he hb hm ha
  subst hd he hb hm
  rcases ha with ha | ⟨e, ha⟩ <;> subst ha <;> cases du <;>
    simp [runPipeline, updateDocumentStatus, linkAlertsToChunks,
      alertExtractionTimeoutSeconds, visionRequestTimeoutSeconds]

/-- C3 witness. -/
theorem c3_alertTimeout_degrades_witness :
    (runPipeline worldAlertTimeout).alerts = [] ∧
    (runPipeline worldAlertTimeout).outcome = .ok () ∧
    (runPipeline worldAlertTimeout).writes.getLast? =
      some ⟨(str "doc1"), statusCompleted, some 0⟩ ∧
    (runPipeline worldAlertTimeout).chunks = chunkDocument pipelineMaxChunkSize
      (str "# Alerts\n\nBody text.") (str "doc1") (str "cust") (str "PRD001")
      none none [] ∧
    alertExtractionTimeoutSeconds = 90 ∧ visionRequestTimeoutSeconds = 180 :=
  c3_alertTimeout_degrades worldAlertTimeout extractOutSample
    rfl rfl (Or.inl rfl) rfl rfl

/-- C4: whenever an exception propagates out of a stage after `doc_id` has
been established (extraction succeeded), the pipeline's final status write is
`failed` with no `alert_count`, no `completed` status is ever written, and
the exception is re-raised to the caller. -/
theorem c4_failurePropagation (w : World) (eo : ExtractOut) (e : PipeError)
    (hd : w.download = .ok ()) (he : w.extract = .ok eo)
    (hm : w.statusMergeOk = true)
    (herr : (runPipeline w).outcome = .error e) :
    (runPipeline w).writes.getLast? = some ⟨eo.docId, statusFailed, none⟩ ∧
    (∀ x ∈ (runPipeline w).writes, x.status ≠ statusCompleted) ∧
    (runPipeline w).outcome = .error e := by
  obtain ⟨cid, fn, dl, ex, as, em, du, cu, au, sm⟩ := w
  simp only at hd he hm
  subst hd he hm
  cases em with
  | ok u =>
    cases u
    exfalso
    cases as <;> simp [runPipeline] at herr
  | error e₂ =>
    cases as <;> cases du <;>
      simp_all [runPipeline, updateDocumentStatus, statusExtracting,
        statusCompleted, statusFailed, str]

/-- C4 witness. -/
theorem c4_failurePropagation_witness :
    (runPipeline worldEmbedFails).writes.getLast? =
      some ⟨(str "doc1"), statusFailed, none⟩ ∧
    (∀ x ∈ (runPipeline worldEmbedFails).writes, x.status ≠ statusCompleted) ∧
    (runPipeline worldEmbedFails).outcome = .error (.err 7) :=
  c4_failurePropagation worldEmbedFails extractOutSample (.err 7)
    rfl rfl rfl (by decide)

/-- C8 (amended): the retry decorator on `extract_alerts` makes at most 2
attempts (within the claimed ≤3 bound) with exponential backoff, but it wraps
the entire extraction body, including response parsing/validation, and
tenacity's default condition retries on ANY exception — so transient
failures and parse/validation failures are retried alike: any first-attempt
failure leads to exactly one more attempt. -/
theorem c8_amended_retryPolicy (outcomes : Nat → CallOutcome) :
    (extractAlertsRetried outcomes).1 ≤ 2 ∧
    tenacityStopAttempts = 2 ∧ tenacityStopAttempts ≤ 3 ∧
    (∀ r, outcomes 0 = .success r → extractAlertsRetried outcomes = (1, .ok r)) ∧
    ((outcomes 0 = .transient ∨ outcomes 0 = .parseFailure) →
      (extractAlertsRetried outcomes).1 = 2) := by
  cases h0 : outcomes 0 <;> cases h1 : outcomes 1 <;>
    simp [extractAlertsRetried, tenacityGo, tenacityStopAttempts, h0, h1]

/-- C8 witness. -/
theorem c8_amended_retryPolicy_witness :
    (extractAlertsRetried outcomesParseThenOk).1 ≤ 2 ∧
    tenacityStopAttempts = 2 ∧ tenacityStopAttempts ≤ 3 ∧
    (∀ r, outcomesParseThenOk 0 = .success r →
      extractAlertsRetried outcomesParseThenOk = (1, .ok r)) ∧
    ((outcomesParseThenOk 0 = .transient ∨ outcomesParseThenOk 0 = .parseFailure) →
      (extractAlertsRetried outcomesParseThenOk).1 = 2) :=
  c8_amended_retryPolicy outcomesParseThenOk

/-- C7: `link_alerts_to_chunks` maps each alert to the deduplicated,
truncated-to-5 list of ids of exactly those chunks passing the spec's
evidence test (page-range overlap, or lower-cased severity/category substring
of the lower-cased section path) — a function of the inputs alone, hence
deterministic in the model; every returned id belongs to a qualifying input
chunk, lists are duplicate-free with length ≤ 5; and an alert with page range
3–4 does overlap a chunk with `page_start = 4`, `page_end = 5`. -/
theorem c7_linker_characterization (alerts : List Alert) (chunks : List Chunk) :
    linkAlertsToChunks alerts chunks =
      alerts.map (fun a => { a with evidence_chunk_ids :=
        (pySetList ((chunks.filter (fun c => specEvidence a c)).map
          (fun c => c.chunk_id))).take 5 }) ∧
    (∀ a ∈ linkAlertsToChunks alerts chunks,
      a.evidence_chunk_ids.length ≤ 5 ∧
      a.evidence_chunk_ids.Nodup ∧
      ∀ cid ∈ a.evidence_chunk_ids,
        ∃ c ∈ chunks, c.chunk_id = cid ∧ specEvidence a c = true) ∧
    specEvidence alertPages34 chunkPages45 = true ∧
    linkAlertsToChunks [alertPages34] [chunkPages45] =
      [{ alertPages34 with evidence_chunk_ids := [str "doc1_chunk_0007"] }] := by
  have hmap : linkAlertsToChunks alerts chunks =
      alerts.map (fun a => { a with evidence_chunk_ids :=
        (pySetList ((chunks.filter (fun c => specEvidence a c)).map
          (fun c => c.chunk_id))).take 5 }) := by
    unfold linkAlertsToChunks
    refine List.map_congr_left (fun a _ => ?_)
    rw [evidenceFold_eq a chunks []]
    simp only [List.nil_append]
    congr 1
    refine congrArg (fun l => (pySetList l).take 5) (congrArg _ ?_)
    exact List.filter_congr (fun c _ => by rw [specEvidence_eq_evidenceCond])
  refine ⟨hmap, ?_, by decide, by decide⟩
  intro a ha
  rw [hmap] at ha
  rcases List.mem_map.mp ha with ⟨a₀, _, rfl⟩
  simp only
  refine ⟨List.length_take_le 5 _, ?_, ?_⟩
  · exact ((List.nodup_dedup _).sublist (List.take_sublist 5 _))
  · intro cid hcid
    have hmem : cid ∈ pySetList ((chunks.filter
        (fun c => specEvidence a₀ c)).map (fun c => c.chunk_id)) :=
      (List.take_sublist 5 _).mem hcid
    have hmem₂ := (List.mem_dedup).mp hmem
    rcases List.mem_map.mp hmem₂ with ⟨c, hc, rfl⟩
    rcases List.mem_filter.mp hc with ⟨hcChunks, hcCond⟩
    exact ⟨c, hcChunks, rfl, hcCond⟩

/-- C7 witness. -/
theorem c7_linker_characterization_witness :
    linkAlertsToChunks [alertPages34] [chunkPages45] =
      [alertPages34].map (fun a => { a with evidence_chunk_ids :=
        ((pySetList (([chunkPages45].filter (fun c => specEvidence a c)).map
          (fun c => c.chunk_id))).take 5) }) ∧
    (∀ a ∈ linkAlertsToChunks [alertPages34] [chunkPages45],
      a.evidence_chunk_ids.length ≤ 5 ∧
      a.evidence_chunk_ids.Nodup ∧
      ∀ cid ∈ a.evidence_chunk_ids,
        ∃ c ∈ [chunkPages45], c.chunk_id = cid ∧ specEvidence a c = true) ∧
    specEvidence alertPages34 chunkPages45 = true ∧
    linkAlertsToChunks [alertPages34] [chunkPages45] =
      [{ alertPages34 with evidence_chunk_ids := [str "doc1_chunk_0007"] }] :=
  c7_linker_characterization [alertPages34] [chunkPages45]

/-- C6 (amended): for a markdown input with no header-pattern matches whose
length does not exceed `max_chunk_size`, `chunk_document` returns exactly one
chunk whose `content_md` is the entire input (oversized header-free inputs
are instead split into sub-chunks, as the counterexample shows). -/
theorem c6_amended_noHeaders_singleChunk (md docId custId sid : Str)
    (env : Option Str) (rd : Option Nat) (pm : List (Nat × Nat × Nat))
    (maxSz : Nat) (hh : findHeaderMatches md = []) (hlen : md.length ≤ maxSz) :
    ∃ c, chunkDocument maxSz md docId custId sid env rd pm = [c] ∧
      c.content_md = md := by
  have hsec : splitByHeaders md = [⟨0, str "Document", md, 0, md.length⟩] := by
    unfold splitByHeaders
    rw [hh]
  have hcm : (mkSectionChunk docId custId sid env rd pm
      [⟨0, str "Document", md, 0, md.length⟩] 0
      ⟨0, str "Document", md, 0, md.length⟩).content_md = md := by
    simp [mkSectionChunk]
  refine ⟨mkSectionChunk docId custId sid env rd pm
    [⟨0, str "Document", md, 0, md.length⟩] 0
    ⟨0, str "Document", md, 0, md.length⟩, ?_, hcm⟩
  unfold chunkDocument
  rw [hsec]
  simp only [List.enum, List.enumFrom, List.map, List.flatten]
  rw [hcm, if_neg (by omega)]
  simp

/-- C6 witness. -/
theorem c6_amended_noHeaders_singleChunk_witness :
    findHeaderMatches (str "Status report.\n\nAll fine.") = [] ∧
    ((str "Status report.\n\nAll fine.").length ≤ 4000) ∧
    ∃ c, chunkDocument 4000 (str "Status report.\n\nAll fine.")
        (str "doc1") (str "cust") (str "PRD001") none none [] = [c] ∧
      c.content_md = str "Status report.\n\nAll fine." :=
  ⟨by decide, by decide,
   c6_amended_noHeaders_singleChunk (str "Status report.\n\nAll fine.")
     (str "doc1") (str "cust") (str "PRD001") none none [] 4000
     (by decide) (by decide)⟩

/-! ### Properties of the Python string helpers -/

theorem pyStrip_length_le (l : Str) : (pyStrip l).length ≤ l.length := by
  unfold pyStrip
  calc ((l.dropWhile isPySpace).reverse.dropWhile isPySpace).reverse.length
      = ((l.dropWhile isPySpace).reverse.dropWhile isPySpace).length := by
        rw [List.length_reverse]
    _ ≤ (l.dropWhile isPySpace).reverse.length :=
        (List.dropWhile_sublist _).length_le
    _ = (l.dropWhile isPySpace).length := by rw [List.length_reverse]
    _ ≤ l.length := (List.dropWhile_sublist _).length_le

theorem pyStrip_eq_nil_iff (l : Str) :
    pyStrip l = [] ↔ ∀ c ∈ l, isPySpace c := by
  unfold pyStrip
  rw [List.reverse_eq_nil_iff, List.dropWhile_eq_nil_iff]
  constructor
  · intro h c hc
    rcases (by
      rw [← List.takeWhile_append_dropWhile (p := isPySpace) (l := l)] at hc
      exact List.mem_append.mp hc) with h₁ | h₂
    · exact List.mem_takeWhile_imp h₁
    · exact h c (List.mem_reverse.mpr h₂)
  · intro h c hc
    exact h c ((List.dropWhile_sublist _).subset (List.mem_reverse.mp hc))

theorem pyStrip_ne_nil_of_mem {l : Str} {c : Char} (hc : c ∈ l)
    (hns : ¬ isPySpace c) : pyStrip l ≠ [] := by
  intro h
  exact hns ((pyStrip_eq_nil_iff l).mp h c hc)

theorem pyStrip_ws_append {w : Str} (hw : ∀ c ∈ w, isPySpace c) (l : Str) :
    pyStrip (w ++ l) = pyStrip l := by
  unfold pyStrip
  rw [List.dropWhile_append]
  simp [List.dropWhile_eq_nil_iff.mpr hw]

theorem pyStrip_append_ws {w : Str} (hw : ∀ c ∈ w, isPySpace c) (l : Str) :
    pyStrip (l ++ w) = pyStrip l := by
  unfold pyStrip
  rw [List.dropWhile_append]
  by_cases h : (l.dropWhile isPySpace).isEmpty
  · rw [if_pos h]
    rw [List.isEmpty_iff] at h
    rw [h, List.dropWhile_eq_nil_iff.mpr hw]
  · rw [if_neg h, List.reverse_append, List.dropWhile_append]
    simp [List.dropWhile_eq_nil_iff.mpr (fun c hc => hw c (List.mem_reverse.mp hc))]

theorem splitBlank_ne_nil (l : Str) : splitBlank l ≠ [] := by
  match l with
  | [] => simp [splitBlank]
  | [c] => simp [splitBlank]
  | a :: b :: rest =>
    unfold splitBlank
    by_cases h : a = '\n' ∧ b = '\n'
    · simp [h]
    · rw [if_neg h]
      cases hsb : splitBlank (b :: rest) <;> simp

theorem joinBlank_splitBlank (l : Str) : joinBlank (splitBlank l) = l := by
  match l with
  | [] => simp [splitBlank, joinBlank, List.intercalate]
  | [c] => simp [splitBlank, joinBlank, List.intercalate]
  | a :: b :: rest =>
    unfold splitBlank
    by_cases h : a = '\n' ∧ b = '\n'
    · rw [if_pos h]
      have ih := joinBlank_splitBlank rest
      obtain ⟨h₁, h₂⟩ := h
      subst h₁ h₂
      cases hsb : splitBlank rest with
      | nil => exact absurd hsb (splitBlank_ne_nil rest)
      | cons x t =>
        rw [hsb] at ih
        simp only [joinBlank, List.intercalate] at ih ⊢
        simp [List.intersperse, ih]
    · rw [if_neg h]
      have ih := joinBlank_splitBlank (b :: rest)
      cases hsb : splitBlank (b :: rest) with
      | nil => exact absurd hsb (splitBlank_ne_nil (b :: rest))
      | cons x t =>
        rw [hsb] at ih
        simp only [joinBlank, List.intercalate] at ih ⊢
        cases t with
        | nil => simp_all
        | cons y t₂ =>
          simp only [List.intersperse] at ih ⊢
          simp [ih.symm]

/-! ### Properties of `_split_large_chunk` -/

/-- The paragraph loop only ever appends to the emitted list. -/
theorem foldl_splitStep_emitted (maxSz : Nat) (hdr : Str) (ps : List Str)
    (st : SplitState) :
    ∃ suf, (ps.foldl (splitStep maxSz hdr) st).emitted = st.emitted ++ suf := by
  induction ps generalizing st with
  | nil => exact ⟨[], by simp⟩
  | cons p ps ih =>
    rcases ih (splitStep maxSz hdr st p) with ⟨suf, hsuf⟩
    rw [List.foldl_cons]
    by_cases h : st.cur.length + p.length > maxSz ∧ pyStrip st.cur ≠ []
    · exact ⟨[pyStrip st.cur] ++ suf, by
        rw [hsuf]; simp [splitStep, if_pos h]⟩
    · exact ⟨suf, by rw [hsuf]; simp [splitStep, if_neg h]⟩

theorem splitHeaderOf_head (cm : Str) (h : splitHeaderOf cm ≠ []) :
    (splitHeaderOf cm).headD ' ' = '#' := by
  unfold splitHeaderOf at h ⊢
  cases hls : splitLines cm with
  | nil => simp [hls] at h
  | cons l₀ t =>
    rw [hls] at h
    change (if List.headD l₀ ' ' = '#' then l₀ else []) ≠ [] at h
    change List.headD (if List.headD l₀ ' ' = '#' then l₀ else []) ' ' = '#'
    by_cases hch : l₀.headD ' ' = '#'
    · rw [if_pos hch]
      exact hch
    · rw [if_neg hch] at h
      exact absurd rfl h

theorem hash_mem_of_headD {l : Str} (hne : l ≠ []) (hh : l.headD ' ' = '#') :
    '#' ∈ l := by
  cases l with
  | nil => exact absurd rfl hne
  | cons c t =>
    simp only [List.headD_cons] at hh
    rw [hh]
    exact List.mem_cons_self _ _

/-- C10: when `_split_large_chunk` runs on a chunk whose content starts with
a header line and whose first body paragraph is so long that header line +
blank line + paragraph already exceed `max_chunk_size`, the FIRST emitted
sub-chunk consists of the (stripped) header line only, with no body text. -/
theorem c10_firstSubChunk_headerOnly (c : Chunk) (baseIdx maxSz : Nat)
    (hhdr : splitHeaderOf c.content_md ≠ [])
    (_hoversize : c.content_md.length > maxSz)
    (hbig : (splitHeaderOf c.content_md).length + 2 +
      ((parasOf c.content_md).headD []).length > maxSz) :
    ∃ rest, splitLargeChunk c baseIdx maxSz =
      ({ c with
         chunk_id := c.doc_id ++ str "_chunk_" ++ padZeros 4 baseIdx ++
           str "_sub" ++ padZeros 2 0
         content_md := pyStrip (splitHeaderOf c.content_md)
         parent_chunk_id := some c.chunk_id } :: rest) := by
  set hdr := splitHeaderOf c.content_md with hhdrdef
  have hwsnl : ∀ ch ∈ (['\n', '\n'] : Str), isPySpace ch := by decide
  have hstrip_seed : pyStrip (hdr ++ ['\n', '\n']) = pyStrip hdr :=
    pyStrip_append_ws hwsnl hdr
  have hmem : '#' ∈ hdr := hash_mem_of_headD hhdr (splitHeaderOf_head _ hhdr)
  have hstrip_ne : pyStrip (hdr ++ ['\n', '\n']) ≠ [] := by
    rw [hstrip_seed]
    exact pyStrip_ne_nil_of_mem hmem (by decide)
  obtain ⟨p₀, ptl, hps⟩ := List.exists_cons_of_ne_nil
    (splitBlank_ne_nil (splitBodyOf c.content_md))
  have hseed : hdrSeedOf c.content_md = hdr ++ ['\n', '\n'] := by
    unfold hdrSeedOf
    rw [if_pos hhdr]
  have hcontents : ∃ tailContents,
      splitContents c.content_md maxSz = pyStrip hdr :: tailContents := by
    simp only [splitContents]
    rw [show parasOf c.content_md = p₀ :: ptl from hps, hseed, List.foldl_cons]
    have hcond : (hdr ++ ['\n', '\n'] : Str).length + p₀.length > maxSz ∧
        pyStrip (hdr ++ ['\n', '\n']) ≠ [] := by
      refine ⟨?_, hstrip_ne⟩
      have : (hdr ++ ['\n', '\n'] : Str).length = hdr.length + 2 := by simp
      rw [this]
      have hp₀ : (parasOf c.content_md).headD [] = p₀ := by
        unfold parasOf
        rw [hps]
        rfl
      rw [hp₀] at hbig
      exact hbig
    have hstep : splitStep maxSz hdr ⟨[], hdr ++ ['\n', '\n'], 0⟩ p₀ =
        ⟨[pyStrip (hdr ++ ['\n', '\n'])],
         hdr ++ ['\n', '\n'] ++ p₀, 1⟩ := by
      unfold splitStep
      rw [if_pos hcond]
      simp [hhdr, List.append_assoc]
    rw [hstep]
    rw [← hhdrdef]
    obtain ⟨st, hst⟩ : ∃ st, List.foldl (splitStep maxSz hdr)
        ⟨[pyStrip (hdr ++ ['\n', '\n'])], hdr ++ ['\n', '\n'] ++ p₀, 1⟩ ptl = st :=
      ⟨_, rfl⟩
    rcases foldl_splitStep_emitted maxSz hdr ptl
      ⟨[pyStrip (hdr ++ ['\n', '\n'])], hdr ++ ['\n', '\n'] ++ p₀, 1⟩ with ⟨suf, hsuf⟩
    rw [hst] at hsuf
    rw [hst, hsuf, hstrip_seed]
    exact ⟨suf ++ (if pyStrip st.cur ≠ [] then [pyStrip st.cur] else []), by simp⟩
  rcases hcontents with ⟨tailContents, htc⟩
  unfold splitLargeChunk
  rw [htc]
  have henum : (pyStrip hdr :: tailContents).enum =
      (0, pyStrip hdr) :: tailContents.enumFrom 1 := by
    simp [List.enum, List.enumFrom]
  rw [henum, List.map_cons]
  exact ⟨_, rfl⟩

/-- C10 witness. -/
theorem c10_firstSubChunk_headerOnly_witness :
    splitHeaderOf chunkHeaderLongPara.content_md ≠ [] ∧
    chunkHeaderLongPara.content_md.length > 10 ∧
    ((splitHeaderOf chunkHeaderLongPara.content_md).length + 2 +
      ((parasOf chunkHeaderLongPara.content_md).headD []).length > 10) ∧
    ∃ rest, splitLargeChunk chunkHeaderLongPara 3 10 =
      ({ chunkHeaderLongPara with
         chunk_id := chunkHeaderLongPara.doc_id ++ str "_chunk_" ++ padZeros 4 3 ++
           str "_sub" ++ padZeros 2 0
         content_md := pyStrip (splitHeaderOf chunkHeaderLongPara.content_md)
         parent_chunk_id := some chunkHeaderLongPara.chunk_id } :: rest) :=
  ⟨by decide, by decide, by decide,
   c10_firstSubChunk_headerOnly chunkHeaderLongPara 3 10
     (by decide) (by decide) (by decide)⟩

theorem exists_nonws_of_pyStrip_ne {l : Str} (h : pyStrip l ≠ []) :
    ∃ c ∈ l, ¬ isPySpace c := by
  by_cases hall : ∀ c ∈ l, isPySpace c
  · exact absurd ((pyStrip_eq_nil_iff l).mpr hall) h
  · push_neg at hall
    rcases hall with ⟨c, hc, hnc⟩
    exact ⟨c, hc, by simpa using hnc⟩

theorem mem_of_mem_intersperse {sep l : Str} {L : List Str}
    (h : l ∈ List.intersperse sep L) : l = sep ∨ l ∈ L := by
  match L with
  | [] => simp [List.intersperse] at h
  | [x] =>
    simp only [List.intersperse, List.mem_singleton] at h
    exact Or.inr (by simp [h])
  | x :: y :: t =>
    simp only [List.intersperse] at h
    rcases List.mem_cons.mp h with rfl | h₂
    · exact Or.inr (List.mem_cons_self _ _)
    · rcases List.mem_cons.mp h₂ with rfl | h₃
      · exact Or.inl rfl
      · rcases mem_of_mem_intersperse (L := y :: t) h₃ with h₄ | h₄
        · exact Or.inl h₄
        · exact Or.inr (List.mem_cons_of_mem _ h₄)

theorem mem_para_of_mem_joinBlank {ch : Char} {L : List Str}
    (h : ch ∈ joinBlank L) (hnws : ¬ isPySpace ch) : ∃ p ∈ L, ch ∈ p := by
  unfold joinBlank List.intercalate at h
  rcases List.mem_flatten.mp h with ⟨l, hl, hch⟩
  rcases mem_of_mem_intersperse hl with rfl | hl₂
  · have hc : ch = '\n' := by simpa using hch
    subst hc
    exact absurd (by decide) hnws
  · exact ⟨l, hl₂, hch⟩

theorem splitStep_preserves_inv (maxSz : Nat) (hdr : Str) (paras : List Str)
    (hhash : hdr ≠ [] → '#' ∈ hdr) (p : Str) (hp : p ∈ paras) (st : SplitState)
    (h : SplitInv maxSz hdr paras st) :
    SplitInv maxSz hdr paras (splitStep maxSz hdr st p) := by
  rcases h with ⟨hQ, hC, hD⟩
  unfold splitStep
  by_cases hcond : st.cur.length + p.length > maxSz ∧ pyStrip st.cur ≠ []
  · rw [if_pos hcond]
    refine ⟨?_, ?_, ?_⟩
    · intro x hx
      rcases List.mem_append.mp hx with hx | hx
      · exact hQ x hx
      · have hx₂ : x = pyStrip st.cur := by simpa using hx
        subst hx₂
        rcases hC with hC | ⟨p', hp', heq⟩ | hC
        · exact Or.inl (le_trans (pyStrip_length_le _) hC)
        · exact Or.inr (Or.inl ⟨p', hp', heq⟩)
        · exact Or.inr (Or.inr hC)
    · by_cases hhdr : hdr ≠ []
      · refine Or.inr (Or.inl ⟨p, hp, ?_⟩)
        simp only [if_pos hhdr, List.append_assoc]
      · refine Or.inr (Or.inl ⟨p, hp, ?_⟩)
        simp only [if_neg hhdr]
        rw [List.nil_append]
    · intro hhdr
      simp only [if_pos hhdr]
      refine pyStrip_ne_nil_of_mem (c := '#') ?_ (by decide)
      exact List.mem_append_left _ (List.mem_append_left _ (hhash hhdr))
  · rw [if_neg hcond]
    refine ⟨hQ, ?_, ?_⟩
    · by_cases hsc : pyStrip st.cur ≠ []
      · rw [if_pos hsc]
        have hlen : st.cur.length + p.length ≤ maxSz := by
          rcases not_and_or.mp hcond with hlen | habs
          · omega
          · exact absurd hsc habs
        refine Or.inl ?_
        simp only [List.length_append, List.length_cons, List.length_nil]
        omega
      · have hsc₂ : pyStrip st.cur = [] := not_not.mp hsc
        have hhdr : hdr = [] := by
          by_contra hne
          exact hsc (hD hne)
        rw [if_neg hsc]
        refine Or.inr (Or.inl ⟨p, hp, ?_⟩)
        rw [pyStrip_ws_append ((pyStrip_eq_nil_iff _).mp hsc₂) p]
        simp [hhdr]
    · intro hhdr
      rcases exists_nonws_of_pyStrip_ne (hD hhdr) with ⟨ch, hch, hnws⟩
      exact pyStrip_ne_nil_of_mem (List.mem_append_left _ hch) hnws

theorem foldl_splitStep_inv (maxSz : Nat) (hdr : Str) (paras : List Str)
    (hhash : hdr ≠ [] → '#' ∈ hdr) (ps : List Str) (hsub : ∀ p ∈ ps, p ∈ paras)
    (st : SplitState) (h : SplitInv maxSz hdr paras st) :
    SplitInv maxSz hdr paras (ps.foldl (splitStep maxSz hdr) st) := by
  induction ps generalizing st with
  | nil => exact h
  | cons p ps ih =>
    rw [List.foldl_cons]
    exact ih (fun q hq => hsub q (List.mem_cons_of_mem _ hq)) _
      (splitStep_preserves_inv maxSz hdr paras hhash p
        (hsub p (List.mem_cons_self _ _)) st h)

/-- In a run of the paragraph loop that never emits, the accumulator only
grows: the initial accumulator is a prefix of the final one and every
processed paragraph is a sublist of it. -/
theorem foldl_splitStep_noEmit (maxSz : Nat) (hdr : Str) (ps : List Str)
    (st : SplitState) (h : (ps.foldl (splitStep maxSz hdr) st).emitted = []) :
    st.emitted = [] ∧ st.cur <+: (ps.foldl (splitStep maxSz hdr) st).cur ∧
    ∀ p ∈ ps, p.Sublist ((ps.foldl (splitStep maxSz hdr) st).cur) := by
  induction ps generalizing st with
  | nil => exact ⟨h, List.prefix_rfl, by simp⟩
  | cons p ps ih =>
    rw [List.foldl_cons] at h ⊢
    rcases ih (splitStep maxSz hdr st p) h with ⟨hemit, hpre, hsubl⟩
    by_cases hcond : st.cur.length + p.length > maxSz ∧ pyStrip st.cur ≠ []
    · exfalso
      rw [splitStep, if_pos hcond] at hemit
      rcases foldl_splitStep_emitted maxSz hdr ps
        ⟨st.emitted ++ [pyStrip st.cur],
         if hdr ≠ [] then hdr ++ ['\n', '\n'] ++ p else p, st.num + 1⟩ with ⟨suf, hsuf⟩
      rw [splitStep, if_pos hcond] at h
      rw [hsuf] at h
      simp at h
    · rw [splitStep, if_neg hcond] at hemit hpre hsubl h ⊢
      refine ⟨hemit, ?_, ?_⟩
      · exact (List.prefix_append _ _).trans hpre
      · intro q hq
        rcases List.mem_cons.mp hq with rfl | hq₂
        · refine List.Sublist.trans ?_ hpre.sublist
          by_cases hsc : pyStrip st.cur ≠ []
          · rw [if_pos hsc]
            exact ((List.sublist_cons_self _ _).trans
              (List.sublist_cons_self _ _)).trans (List.sublist_append_right _ _)
          · rw [if_neg hsc]
            exact List.sublist_append_right _ _
        · exact hsubl q hq₂

/-- Every content string produced by the splitter loop is within the slack
bound `maxSz + 2`, or is the stripped header seed with a single paragraph
attached, or the stripped header seed alone. -/
theorem splitContents_bounds (cm : Str) (maxSz : Nat) :
    ∀ x ∈ splitContents cm maxSz,
      x.length ≤ maxSz + 2 ∨
      (∃ p ∈ parasOf cm, x = pyStrip (hdrSeedOf cm ++ p)) ∨
      x = pyStrip (hdrSeedOf cm) := by
  set hdr := splitHeaderOf cm with hhdrdef
  have hhash : hdr ≠ [] → '#' ∈ hdr :=
    fun hme => hash_mem_of_headD hme (splitHeaderOf_head _ hme)
  have hseedeq : hdrSeedOf cm = if hdr ≠ [] then hdr ++ ['\n', '\n'] else [] := rfl
  have hinit : SplitInv maxSz hdr (parasOf cm) ⟨[], hdrSeedOf cm, 0⟩ := by
    refine ⟨by simp, Or.inr (Or.inr ?_), ?_⟩
    · rw [hseedeq]
    · intro hhdr
      show pyStrip (hdrSeedOf cm) ≠ []
      rw [hseedeq, if_pos hhdr,
        show pyStrip (hdr ++ ['\n', '\n']) = pyStrip hdr from
          pyStrip_append_ws (by decide) hdr]
      exact pyStrip_ne_nil_of_mem (hhash hhdr) (by decide)
  have hfin := foldl_splitStep_inv maxSz hdr (parasOf cm) hhash (parasOf cm)
    (fun p hp => hp) _ hinit
  intro x hx
  simp only [splitContents] at hx
  rcases List.mem_append.mp hx with hx | hx
  · have hq := hfin.1 x hx
    rw [← hseedeq] at hq
    exact hq
  · rcases hfin with ⟨-, hC, -⟩
    by_cases hfl : pyStrip ((parasOf cm).foldl (splitStep maxSz hdr)
        ⟨[], hdrSeedOf cm, 0⟩).cur ≠ []
    · rw [if_pos hfl] at hx
      have hx₂ : x = pyStrip ((parasOf cm).foldl (splitStep maxSz hdr)
          ⟨[], hdrSeedOf cm, 0⟩).cur := by simpa using hx
      subst hx₂
      rcases hC with h | ⟨p, hp, heq⟩ | h
      · exact Or.inl (le_trans (pyStrip_length_le _) h)
      · rw [← hseedeq] at heq
        exact Or.inr (Or.inl ⟨p, hp, heq⟩)
      · rw [← hseedeq] at h
        exact Or.inr (Or.inr h)
    · rw [if_neg hfl] at hx
      simp at hx

/-- If the content holds any non-whitespace character, the splitter emits at
least one sub-chunk. -/
theorem splitContents_ne_nil (cm : Str) (maxSz : Nat)
    (hch : ∃ ch ∈ cm, ¬ isPySpace ch) : splitContents cm maxSz ≠ [] := by
  intro hnil
  simp only [splitContents] at hnil
  rcases List.append_eq_nil.mp hnil with ⟨hemit, hflush⟩
  have hstrip : pyStrip ((parasOf cm).foldl
      (splitStep maxSz (splitHeaderOf cm)) ⟨[], hdrSeedOf cm, 0⟩).cur = [] := by
    by_contra hne
    rw [if_pos hne] at hflush
    simp at hflush
  rcases foldl_splitStep_noEmit maxSz (splitHeaderOf cm) (parasOf cm)
    ⟨[], hdrSeedOf cm, 0⟩ hemit with ⟨-, hpre, hsubl⟩
  have hallws := (pyStrip_eq_nil_iff _).mp hstrip
  rcases hch with ⟨ch, hchmem, hnws⟩
  by_cases hhdr : splitHeaderOf cm ≠ []
  · have hseed : hdrSeedOf cm = splitHeaderOf cm ++ ['\n', '\n'] := by
      unfold hdrSeedOf
      rw [if_pos hhdr]
    have hmem : '#' ∈ ((parasOf cm).foldl
        (splitStep maxSz (splitHeaderOf cm)) ⟨[], hdrSeedOf cm, 0⟩).cur := by
      refine hpre.sublist.subset ?_
      show '#' ∈ hdrSeedOf cm
      rw [hseed]
      exact List.mem_append_left _
        (hash_mem_of_headD hhdr (splitHeaderOf_head _ hhdr))
    exact absurd (hallws '#' hmem) (by decide)
  · have hbody : splitBodyOf cm = cm := by
      unfold splitBodyOf
      rw [if_neg hhdr]
    have hjoin : joinBlank (parasOf cm) = cm := by
      unfold parasOf
      rw [joinBlank_splitBlank, hbody]
    have hch₂ : ch ∈ joinBlank (parasOf cm) := by
      rw [hjoin]
      exact hchmem
    rcases mem_para_of_mem_joinBlank hch₂ hnws with ⟨p, hp, hchp⟩
    exact absurd (hallws ch ((hsubl p hp).subset hchp)) hnws

/-- C5 (amended): the sub-chunks of an oversized section are never truncated
arbitrarily: each one's `content_md` is within `max_chunk_size + 2` (the size
check omits the two-character paragraph joiner), or is exactly the stripped
header seed plus one intact paragraph, or the stripped header seed alone;
at least one sub-chunk is produced whenever the section content has any
non-whitespace character; and every chunk `chunk_document` returns obeys the
same bound. -/
theorem c5_amended_splitBounds (c : Chunk) (baseIdx maxSz : Nat) :
    (∀ sc ∈ splitLargeChunk c baseIdx maxSz,
      sc.content_md.length ≤ maxSz + 2 ∨
      (∃ p ∈ parasOf c.content_md,
        sc.content_md = pyStrip (hdrSeedOf c.content_md ++ p)) ∨
      sc.content_md = pyStrip (hdrSeedOf c.content_md)) ∧
    ((∃ ch ∈ c.content_md, ¬ isPySpace ch) →
      splitLargeChunk c baseIdx maxSz ≠ []) ∧
    (∀ (md docId custId sid : Str) (env : Option Str) (rd : Option Nat)
      (pm : List (Nat × Nat × Nat)),
      ∀ ck ∈ chunkDocument maxSz md docId custId sid env rd pm,
        ck.content_md.length ≤ maxSz + 2 ∨
        ∃ cm, (∃ p ∈ parasOf cm, ck.content_md = pyStrip (hdrSeedOf cm ++ p)) ∨
          ck.content_md = pyStrip (hdrSeedOf cm)) := by
  have hmemContents : ∀ (c' : Chunk) (bi : Nat),
      ∀ sc ∈ splitLargeChunk c' bi maxSz,
        sc.content_md ∈ splitContents c'.content_md maxSz := by
    intro c' bi sc hsc
    unfold splitLargeChunk at hsc
    rcases List.mem_map.mp hsc with ⟨⟨i, x⟩, hmem, rfl⟩
    show x ∈ splitContents c'.content_md maxSz
    have hx : (i, x).2 ∈ (splitContents c'.content_md maxSz).enum.map Prod.snd :=
      List.mem_map_of_mem Prod.snd hmem
    rwa [List.enum_map_snd] at hx
  refine ⟨?_, ?_, ?_⟩
  · intro sc hsc
    exact splitContents_bounds c.content_md maxSz sc.content_md
      (hmemContents c baseIdx sc hsc)
  · intro hch hnil
    refine splitContents_ne_nil c.content_md maxSz hch ?_
    have hlen : (splitContents c.content_md maxSz).length = 0 := by
      have := congrArg List.length hnil
      simpa [splitLargeChunk, List.enum_length] using this
    exact List.length_eq_zero.mp hlen
  · intro md docId custId sid env rd pm ck hck
    simp only [chunkDocument] at hck
    rcases List.mem_flatten.mp hck with ⟨sub, hsub, hcksub⟩
    rcases List.mem_map.mp hsub with ⟨⟨i, sec⟩, hienum, rfl⟩
    by_cases hbig : (mkSectionChunk docId custId sid env rd pm
        (splitByHeaders md) i sec).content_md.length > maxSz
    · rw [if_pos hbig] at hcksub
      rcases splitContents_bounds
        (mkSectionChunk docId custId sid env rd pm (splitByHeaders md) i
          sec).content_md maxSz ck.content_md
        (hmemContents _ i ck hcksub) with h | h | h
      · exact Or.inl h
      · exact Or.inr ⟨_, Or.inl h⟩
      · exact Or.inr ⟨_, Or.inr h⟩
    · rw [if_neg hbig] at hcksub
      have hck₂ : ck = mkSectionChunk docId custId sid env rd pm
          (splitByHeaders md) i sec := by simpa using hcksub
      subst hck₂
      omega

/-- C5 witness. -/
theorem c5_amended_splitBounds_witness :
    (∀ sc ∈ splitLargeChunk chunkHeaderLongPara 3 10,
      sc.content_md.length ≤ 10 + 2 ∨
      (∃ p ∈ parasOf chunkHeaderLongPara.content_md,
        sc.content_md = pyStrip (hdrSeedOf chunkHeaderLongPara.content_md ++ p)) ∨
      sc.content_md = pyStrip (hdrSeedOf chunkHeaderLongPara.content_md)) ∧
    ((∃ ch ∈ chunkHeaderLongPara.content_md, ¬ isPySpace ch) →
      splitLargeChunk chunkHeaderLongPara 3 10 ≠ []) ∧
    (∀ (md docId custId sid : Str) (env : Option Str) (rd : Option Nat)
      (pm : List (Nat × Nat × Nat)),
      ∀ ck ∈ chunkDocument 10 md docId custId sid env rd pm,
        ck.content_md.length ≤ 10 + 2 ∨
        ∃ cm, (∃ p ∈ parasOf cm, ck.content_md = pyStrip (hdrSeedOf cm ++ p)) ∨
          ck.content_md = pyStrip (hdrSeedOf cm)) :=
  c5_amended_splitBounds chunkHeaderLongPara 3 10

/-! ### Properties of the SAP-note scanner -/

theorem digitCapture_props (s : Str) (m : Nat)
    (hrun : 7 ≤ ((s.drop m).takeWhile Char.isDigit).length) :
    7 ≤ (((s.drop m).takeWhile Char.isDigit).take 10).length ∧
    (((s.drop m).takeWhile Char.isDigit).take 10).length ≤ 10 ∧
    (∀ c ∈ ((s.drop m).takeWhile Char.isDigit).take 10, c.isDigit) ∧
    ((s.drop m).takeWhile Char.isDigit).take 10 <:+: s := by
  set run := (s.drop m).takeWhile Char.isDigit with hrundef
  refine ⟨?_, ?_, ?_, ?_⟩
  · rw [List.length_take]
    omega
  · rw [List.length_take]
    omega
  · intro c hc
    exact List.mem_takeWhile_imp ((List.take_sublist _ _).subset hc)
  · have h₁ : run.take 10 <+: run := ⟨run.drop 10, List.take_append_drop _ _⟩
    have h₂ : run <+: s.drop m :=
      ⟨(s.drop m).dropWhile Char.isDigit, by
        rw [hrundef, List.takeWhile_append_dropWhile]⟩
    rcases h₁.trans h₂ with ⟨t, ht⟩
    refine ⟨s.take m, t, ?_⟩
    rw [List.append_assoc, ht, List.take_append_drop]

theorem matchNoteCore_props {s : Str} {j : Nat} {cap : Str} {e : Nat}
    (h : matchNoteCore s j = some (cap, e)) :
    7 ≤ cap.length ∧ cap.length ≤ 10 ∧ (∀ c ∈ cap, c.isDigit) ∧ cap <:+: s := by
  simp only [matchNoteCore] at h
  repeat' split at h
  all_goals try exact Option.noConfusion h
  all_goals
    have h₂ := Option.some.inj h
    injection h₂ with hcap he
    rcases digitCapture_props s _ (by assumption) with ⟨ha, hb, hc, hd⟩
    rw [hcap] at ha hb hc hd
    exact ⟨ha, hb, hc, hd⟩

theorem matchNoteAt_props {s : Str} {i : Nat} {cap : Str} {e : Nat}
    (h : matchNoteAt s i = some (cap, e)) :
    7 ≤ cap.length ∧ cap.length ≤ 10 ∧ (∀ c ∈ cap, c.isDigit) ∧ cap <:+: s := by
  unfold matchNoteAt at h
  split at h
  · rename_i r hr
    rcases Option.some.inj h with rfl
    split at hr
    · exact matchNoteCore_props hr
    · exact absurd hr (by simp)
  · exact matchNoteCore_props h

theorem scanNotes_props (s : Str) : ∀ (fuel i : Nat), ∀ x ∈ scanNotes s fuel i,
    7 ≤ x.length ∧ x.length ≤ 10 ∧ (∀ c ∈ x, c.isDigit) ∧ x <:+: s := by
  intro fuel
  induction fuel with
  | zero =>
    intro i x hx
    simp [scanNotes] at hx
  | succ n ih =>
    intro i x hx
    simp only [scanNotes] at hx
    by_cases hi : i ≥ s.length
    · rw [if_pos hi] at hx
      simp at hx
    · rw [if_neg hi] at hx
      cases hma : matchNoteAt s i with
      | none =>
        rw [hma] at hx
        exact ih (i + 1) x hx
      | some r =>
        obtain ⟨cap, e⟩ := r
        rw [hma] at hx
        rcases List.mem_cons.mp hx with rfl | hx₂
        · exact matchNoteAt_props hma
        · exact ih (max e (i + 1)) x hx₂

/-- C9 (amended): `_extract_sap_notes` returns a duplicate-free list in which
every element is a 7–10-digit substring of the content, matched after the
token `Note`/`note` (only the initial letter is case-insensitive, not the
whole word) with optional `SAP` prefix and optional `Number` qualifier and
optional `:`/`-` separator; in particular the mixed corpus with a repeated
note id yields exactly the two distinct ids, while an upper-case `NOTE` is
not matched. -/
theorem c9_amended_sapNotes (content : Str) :
    (extractSapNotes content).Nodup ∧
    (∀ x ∈ extractSapNotes content,
      7 ≤ x.length ∧ x.length ≤ 10 ∧ (∀ ch ∈ x, ch.isDigit) ∧ x <:+: content) ∧
    extractSapNotes
      (str "See SAP Note 1234567 and note 1234567, also Note Number: 7654321.") =
      [str "1234567", str "7654321"] ∧
    extractSapNotes (str "NOTE 1234567") = [] := by
  refine ⟨List.nodup_dedup _, ?_, by decide, by decide⟩
  intro x hx
  exact scanNotes_props content _ 0 x (List.mem_dedup.mp hx)

/-- C9 witness. -/
theorem c9_amended_sapNotes_witness :
    (extractSapNotes (str "Apply SAP Note 2382421 and Note 2382421.")).Nodup ∧
    (∀ x ∈ extractSapNotes (str "Apply SAP Note 2382421 and Note 2382421."),
      7 ≤ x.length ∧ x.length ≤ 10 ∧ (∀ ch ∈ x, ch.isDigit) ∧
      x <:+: str "Apply SAP Note 2382421 and Note 2382421.") ∧
    extractSapNotes
      (str "See SAP Note 1234567 and note 1234567, also Note Number: 7654321.") =
      [str "1234567", str "7654321"] ∧
    extractSapNotes (str "NOTE 1234567") = [] :=
  c9_amended_sapNotes (str "Apply SAP Note 2382421 and Note 2382421.")

end Ewa
